import Mathlib

/-!
Verification of the batch/transaction core of the `json-obj-manager` library
(`src/core/storage.ts`, `src/utils/batch.ts`).

The TypeScript code is shallowly embedded:

* JS values of type `AllowedData` (`string | number | boolean | object | null`)
  become the inductive `JSValue`; `undefined` (possible because
  `BatchOperation.value` is optional) is modelled as `Option.none` at use
  sites, so stored/passed values have type `Option JSValue`.
* The backend (`StorageAdapter`) is a string-keyed insertion-ordered map
  (a JS `Map`) together with a fixed failure model saying which keys make
  `save`/`load`/`delete` throw — that is how the repository's own tests
  inject backend failures (jest mocks that throw on a chosen key).
* `async`/`await` sequencing becomes explicit state passing; a thrown JS
  error becomes an `Option JSError` / `Except JSError` component of the
  result.  An operation that throws always returns the state as it was at
  the moment of the throw, so "state unchanged on error" is a provable
  statement, not a modelling convention.
* Event emission (`Emitter.emit`) appends to an event log in the state; it
  never fails and never changes the data map.
-/

namespace JsonObjManager

/-- A JS value of TypeScript type `AllowedData = string | number | boolean
| object | null` (`src/core/types.ts`).  An `obj` carries a flag recording
whether it contains a circular reference, the one case in the value domain
where `JSON.stringify` throws. -/
inductive JSValue where
  | str (s : String)
  | num (n : Int)
  | boolean (b : Bool)
  | jsnull
  | obj (circular : Bool)
deriving DecidableEq, Repr

/-- Embeds `DataStorage.validateData` (`src/core/storage.ts` lines 155-166):
rejects `null`/`undefined`, then rejects values on which `JSON.stringify`
throws (circular objects).  `none` models `undefined`. -/
def validateData : Option JSValue → Bool
  | none => false
  | some .jsnull => false
  | some (.obj circular) => !circular
  | some _ => true

/-! Section: Insertion-ordered string-keyed maps (JS `Map` / plain objects) -/

/-- Embeds `Map.get` / object indexing: the value at the first entry with this key. -/
def lookupEntry : List (String × α) → String → Option α
  | [], _ => none
  | (k', v) :: rest, k => if k' = k then some v else lookupEntry rest k

/-- Embeds `Map.set` / object property assignment: update in place (preserving
insertion order) when the key is present, append otherwise. -/
def setEntry : List (String × α) → String → α → List (String × α)
  | [], k, v => [(k, v)]
  | (k', v') :: rest, k, v =>
      if k' = k then (k, v) :: rest else (k', v') :: setEntry rest k v

/-- Embeds `Map.delete`: remove the entry with this key. -/
def eraseEntry : List (String × α) → String → List (String × α)
  | [], _ => []
  | (k', v') :: rest, k => if k' = k then rest else (k', v') :: eraseEntry rest k

/-- The keys of a map, in insertion order. -/
def entryKeys (m : List (String × α)) : List String := m.map Prod.fst

theorem lookupEntry_setEntry_self (m : List (String × α)) (k : String) (v : α) :
    lookupEntry (setEntry m k v) k = some v := by
  induction m with
  | nil => simp [setEntry, lookupEntry]
  | cons p rest ih =>
      obtain ⟨k', v'⟩ := p
      by_cases h : k' = k
      · simp [setEntry, lookupEntry, h]
      · simp [setEntry, lookupEntry, h, ih]

theorem lookupEntry_setEntry_ne (m : List (String × α)) (k k' : String) (v : α)
    (h : k' ≠ k) : lookupEntry (setEntry m k v) k' = lookupEntry m k' := by
  have hkk : ¬(k = k') := fun hk => h hk.symm
  induction m with
  | nil => simp [setEntry, lookupEntry, hkk]
  | cons p rest ih =>
      obtain ⟨k₀, v₀⟩ := p
      by_cases hk : k₀ = k
      · subst hk
        simp [setEntry, lookupEntry, hkk]
      · by_cases hk' : k₀ = k'
        · subst hk'
          simp [setEntry, lookupEntry, hk, hkk]
        · simp [setEntry, lookupEntry, hk, hk', ih]

theorem lookupEntry_eraseEntry_ne (m : List (String × α)) (k k' : String)
    (h : k' ≠ k) : lookupEntry (eraseEntry m k) k' = lookupEntry m k' := by
  have hkk : ¬(k = k') := fun hk => h hk.symm
  induction m with
  | nil => simp [eraseEntry]
  | cons p rest ih =>
      obtain ⟨k₀, v₀⟩ := p
      by_cases hk : k₀ = k
      · subst hk
        simp [eraseEntry, lookupEntry, hkk]
      · simp [eraseEntry, lookupEntry, hk, ih]

theorem entryKeys_cons (k₀ : String) (v₀ : α) (rest : List (String × α)) :
    entryKeys ((k₀, v₀) :: rest) = k₀ :: entryKeys rest := rfl

theorem mem_entryKeys_iff_lookup_isSome (m : List (String × α)) (k : String) :
    k ∈ entryKeys m ↔ (lookupEntry m k).isSome := by
  induction m with
  | nil => simp [entryKeys, lookupEntry]
  | cons p rest ih =>
      obtain ⟨k₀, v₀⟩ := p
      by_cases hk : k₀ = k
      · subst hk
        simp [entryKeys_cons, lookupEntry]
      · have hkk : ¬(k = k₀) := fun hq => hk hq.symm
        simp [entryKeys_cons, lookupEntry, hk, hkk, ih]

theorem entryKeys_setEntry_of_mem (m : List (String × α)) (k : String) (v : α)
    (h : k ∈ entryKeys m) : entryKeys (setEntry m k v) = entryKeys m := by
  induction m with
  | nil => simp [entryKeys] at h
  | cons p rest ih =>
      obtain ⟨k₀, v₀⟩ := p
      by_cases hk : k₀ = k
      · simp [setEntry, entryKeys_cons, hk]
      · have hkk : ¬(k = k₀) := fun hq => hk hq.symm
        have hmem : k ∈ entryKeys rest := by
          rw [entryKeys_cons] at h
          rcases List.mem_cons.mp h with hq | hq
          · exact absurd hq hkk
          · exact hq
        simp only [setEntry, if_neg hk, entryKeys_cons, ih hmem]

theorem entryKeys_setEntry_of_not_mem (m : List (String × α)) (k : String) (v : α)
    (h : k ∉ entryKeys m) : entryKeys (setEntry m k v) = entryKeys m ++ [k] := by
  induction m with
  | nil => simp [setEntry, entryKeys]
  | cons p rest ih =>
      obtain ⟨k₀, v₀⟩ := p
      rw [entryKeys_cons] at h
      have hk : ¬(k₀ = k) := fun hq => h (by simp [hq])
      have hrest : k ∉ entryKeys rest := fun hq => h (List.mem_cons_of_mem _ hq)
      simp only [setEntry, if_neg hk, entryKeys_cons, ih hrest, List.cons_append]

theorem nodup_entryKeys_setEntry (m : List (String × α)) (k : String) (v : α)
    (h : (entryKeys m).Nodup) : (entryKeys (setEntry m k v)).Nodup := by
  by_cases hmem : k ∈ entryKeys m
  · rw [entryKeys_setEntry_of_mem m k v hmem]; exact h
  · rw [entryKeys_setEntry_of_not_mem m k v hmem]
    simp [List.nodup_append, h, hmem]

theorem eraseEntry_sublist (m : List (String × α)) (k : String) :
    (eraseEntry m k).Sublist m := by
  induction m with
  | nil => simp [eraseEntry]
  | cons p rest ih =>
      obtain ⟨k₀, v₀⟩ := p
      by_cases hk : k₀ = k
      · simp [eraseEntry, hk]
      · simpa [eraseEntry, hk] using List.Sublist.cons₂ (k₀, v₀) ih

theorem nodup_entryKeys_eraseEntry (m : List (String × α)) (k : String)
    (h : (entryKeys m).Nodup) : (entryKeys (eraseEntry m k)).Nodup :=
  List.Nodup.sublist (List.Sublist.map Prod.fst (eraseEntry_sublist m k)) h

theorem lookupEntry_eraseEntry_self (m : List (String × α)) (k : String)
    (h : (entryKeys m).Nodup) : lookupEntry (eraseEntry m k) k = none := by
  induction m with
  | nil => simp [eraseEntry, lookupEntry]
  | cons p rest ih =>
      obtain ⟨k₀, v₀⟩ := p
      rw [entryKeys_cons, List.nodup_cons] at h
      by_cases hk : k₀ = k
      · subst hk
        have herase : eraseEntry ((k₀, v₀) :: rest) k₀ = rest := by simp [eraseEntry]
        rw [herase]
        cases hl : lookupEntry rest k₀ with
        | none => rfl
        | some v =>
            exact absurd ((mem_entryKeys_iff_lookup_isSome rest k₀).mpr (by simp [hl])) h.1
      · simp [eraseEntry, lookupEntry, hk, ih h.2]

/-! Section: The backend (`StorageAdapter`) and its failure model -/

/-- Which keys make the backend throw, per operation.  This is fixed for the
lifetime of the adapter — it mirrors how the repository's tests inject
failures (a mock whose `save` throws for one chosen key). -/
structure FailureModel where
  saveFails : List String := []
  loadFails : List String := []
  deleteFails : List String := []
deriving DecidableEq, Repr

/-- Policy: `DataStorage`'s emission-mode policy (`'all' | 'info'`). -/
inductive EmitMode where
  | all
  | info
deriving DecidableEq, Repr

/-- The errors thrown by the embedded code.  The source throws plain
`Error` objects distinguished by message; we keep the kind as a
constructor and reproduce the message via `JSError.message`. -/
inductive JSError where
  | validation
  | backendSave (key : String)
  | backendLoad (key : String)
  | backendDelete (key : String)
  | invalidState (msg : String)
  | rollbackFailed (msg : String)
deriving DecidableEq, Repr

/-- Computes `error.message` of the thrown `Error`.  Backend errors are
adapter-chosen; we fix one canonical message per operation/key. -/
def JSError.message : JSError → String
  | .validation => "Invalid data format"
  | .backendSave k => "backend save failed: " ++ k
  | .backendLoad k => "backend load failed: " ++ k
  | .backendDelete k => "backend delete failed: " ++ k
  | .invalidState m => m
  | .rollbackFailed m => m

/-- Payloads emitted through the `Emitter` (`src/core/storage.ts`).
`change` carries the full post-operation snapshot (`getAll`). -/
inductive EventPayload where
  | change (snapshot : List (String × JSValue))
  | saveEvt (key : String) (data : JSValue)
  | loadEvt (key : String) (data : JSValue)
  | deleteEvt (key : String) (deletedData : Option JSValue)
deriving DecidableEq, Repr

/-- The mutable state seen by the façade: the backend's key-value map, the
emission mode, and the log of emitted events. -/
structure Storage where
  data : List (String × JSValue)
  emitMode : EmitMode := .all
  events : List EventPayload := []
deriving DecidableEq, Repr

/-- Embeds `adapter.save`: throws on keys in `saveFails`, otherwise `Map.set`.
On a throw the state is returned unchanged. -/
def adapterSave (cfg : FailureModel) (s : Storage) (k : String) (v : JSValue) :
    Storage × Option JSError :=
  if k ∈ cfg.saveFails then (s, some (.backendSave k))
  else ({ s with data := setEntry s.data k v }, none)

/-- Embeds `adapter.load`: throws on keys in `loadFails`, otherwise returns the
stored value or `null` (`none`) on a miss.  Loads never change the state. -/
def adapterLoad (cfg : FailureModel) (s : Storage) (k : String) :
    Except JSError (Option JSValue) :=
  if k ∈ cfg.loadFails then .error (.backendLoad k)
  else .ok (lookupEntry s.data k)

/-- Embeds `adapter.delete`: throws on keys in `deleteFails`, otherwise
`Map.delete` (a no-op on an absent key). -/
def adapterDelete (cfg : FailureModel) (s : Storage) (k : String) :
    Storage × Option JSError :=
  if k ∈ cfg.deleteFails then (s, some (.backendDelete k))
  else ({ s with data := eraseEntry s.data k }, none)

/-! Section: The `DataStorage` façade (`src/core/storage.ts`, emitter version) -/

/-- Embeds `DataStorage.save` (lines 87-101): reject invalid values before any
write (`validateData`), then delegate to the backend and emit —
a full-snapshot `change` event in `'all'` mode, a `save{key,data}` event
in `'info'` mode.  `validateData none = false` always, so the `none`
(undefined) branch throws the same validation error as the source. -/
def dsSave (cfg : FailureModel) (s : Storage) (k : String) (v : Option JSValue) :
    Storage × Option JSError :=
  match v with
  | none => (s, some .validation)
  | some val =>
      if validateData (some val) then
        match adapterSave cfg s k val with
        | (s1, some e) => (s1, some e)
        | (s1, none) =>
            if s1.emitMode = .all then
              ({ s1 with events := s1.events ++ [.change s1.data] }, none)
            else
              ({ s1 with events := s1.events ++ [.saveEvt k val] }, none)
      else (s, some .validation)

/-- Embeds `DataStorage.load` (lines 103-112): delegate to the backend; in `'info'`
mode, emit `load{key,data}` only when a value was found. -/
def dsLoad (cfg : FailureModel) (s : Storage) (k : String) :
    Storage × Except JSError (Option JSValue) :=
  match adapterLoad cfg s k with
  | .error e => (s, .error e)
  | .ok none => (s, .ok none)
  | .ok (some d) =>
      if s.emitMode = .info then
        ({ s with events := s.events ++ [.loadEvt k d] }, .ok (some d))
      else (s, .ok (some d))

/-- Embeds `DataStorage.delete` (lines 114-127): in `'info'` mode the pre-delete
value is read FIRST via `adapter.load`, with no try/catch around it, so a
failing pre-read throws before the backend delete runs; otherwise the
backend delete executes and the mode-appropriate event is emitted
(`change` with the post-delete snapshot, or `delete{key,deletedData}`). -/
def dsDelete (cfg : FailureModel) (s : Storage) (k : String) :
    Storage × Option JSError :=
  if s.emitMode = .info then
    match adapterLoad cfg s k with
    | .error e => (s, some e)
    | .ok pre =>
        match adapterDelete cfg s k with
        | (s1, some e) => (s1, some e)
        | (s1, none) =>
            ({ s1 with events := s1.events ++ [.deleteEvt k pre] }, none)
  else
    match adapterDelete cfg s k with
    | (s1, some e) => (s1, some e)
    | (s1, none) =>
        ({ s1 with events := s1.events ++ [.change s1.data] }, none)

/-! Section: `BatchProcessor` (`src/utils/batch.ts`) -/

/-- The two operation kinds (`type: 'save' | 'delete'`). -/
inductive OpType where
  | save
  | delete
deriving DecidableEq, Repr

/-- Embeds `BatchOperation { type, key, value? }`.  `value` is optional, so an
absent value is `none` (JS `undefined`). -/
structure BatchOperation where
  type : OpType
  key : String
  value : Option JSValue := none
deriving DecidableEq, Repr

/-- Embeds `BatchOperationResult { operation, success, error? }`. -/
structure BatchOperationResult where
  operation : BatchOperation
  success : Bool
  error : Option String := none
deriving DecidableEq, Repr

/-- Embeds `BatchResult { success, operations, errors }`. -/
structure BatchResult where
  success : Bool
  operations : List BatchOperationResult
  errors : List String
deriving DecidableEq, Repr

/-- One iteration of `executeChunk`'s per-operation try/catch: run the
operation against the storage, producing its `BatchOperationResult` and
(on failure) the descriptive entry pushed onto `errors`. -/
def execOne (cfg : FailureModel) (s : Storage) (op : BatchOperation) :
    Storage × BatchOperationResult × Option String :=
  match op.type with
  | .save =>
      match dsSave cfg s op.key op.value with
      | (s1, none) => (s1, ⟨op, true, none⟩, none)
      | (s1, some e) =>
          (s1, ⟨op, false, some e.message⟩,
            some ("Save operation failed for key '" ++ op.key ++ "': " ++ e.message))
  | .delete =>
      match dsDelete cfg s op.key with
      | (s1, none) => (s1, ⟨op, true, none⟩, none)
      | (s1, some e) =>
          (s1, ⟨op, false, some e.message⟩,
            some ("Delete operation failed for key '" ++ op.key ++ "': " ++ e.message))

/-- One of `executeChunk`'s two `for` loops: run the given operations in
order, collecting results and error messages.  Failures are caught per
operation, so the loop never aborts. -/
def execOpList (cfg : FailureModel) (s : Storage) :
    List BatchOperation → Storage × List BatchOperationResult × List String
  | [] => (s, [], [])
  | op :: rest =>
      let (s1, r, err) := execOne cfg s op
      let (s2, rs, errs) := execOpList cfg s1 rest
      (s2, r :: rs, (match err with | none => [] | some e => [e]) ++ errs)

/-- Embeds `BatchProcessor.executeChunk` (lines 80-132): partition the chunk into
save operations and delete operations, run all saves then all deletes, and
report.  The source flips `success` to `false` on each caught failure,
which is equivalent to `success = all results succeeded`. -/
def executeChunk (cfg : FailureModel) (s : Storage) (operations : List BatchOperation) :
    Storage × BatchResult :=
  let saveOps := operations.filter (fun op => op.type = .save)
  let deleteOps := operations.filter (fun op => op.type = .delete)
  let (s1, rs1, errs1) := execOpList cfg s saveOps
  let (s2, rs2, errs2) := execOpList cfg s1 deleteOps
  (s2, ⟨(rs1 ++ rs2).all (fun r => r.success), rs1 ++ rs2, errs1 ++ errs2⟩)

/-- Embeds `chunkOperations` / `chunkArray` (lines 135-143, 207-213): consecutive
slices of at most `size` elements.  The source's `for (i = 0; i < len;
i += size)` loop never terminates when `size ≤ 0` and the list is
nonempty; the `size = 0` branch below is a total stand-in for that
divergence and is unreachable for the sizes the constructor produces from
non-negative options. -/
def chunkListGo (size : Nat) : Nat → List α → List (List α)
  | _, [] => []
  | 0, _ :: _ => []
  | fuel + 1, x :: xs =>
      match size with
      | 0 => []
      | s + 1 => ((x :: xs).take (s + 1)) :: chunkListGo size fuel ((x :: xs).drop (s + 1))

/-- Entry point of the chunking loop.  Every iteration consumes at least
one element when `size` is positive, so a fuel of `l.length` never runs
out; the fuel only keeps the recursion structural (hence computable by
reduction). -/
def chunkList (size : Nat) (l : List α) : List (List α) :=
  chunkListGo size l.length l

/-- Embeds `executeBatch`'s loop over the chunks, concatenating per-chunk results.
The chunk-level catch in the source (line 69) is unreachable here because
`executeChunk` catches every per-operation failure and nothing else in its
body throws; the `delayBetweenBatches` pause has no observable effect on
the state. -/
def execChunks (cfg : FailureModel) (s : Storage) :
    List (List BatchOperation) → Storage × BatchResult
  | [] => (s, ⟨true, [], []⟩)
  | c :: cs =>
      let (s1, r1) := executeChunk cfg s c
      let (s2, r2) := execChunks cfg s1 cs
      (s2, ⟨r1.success && r2.success, r1.operations ++ r2.operations, r1.errors ++ r2.errors⟩)

/-- Embeds `BatchProcessor.executeBatch` (lines 43-77), parameterized by the
processor's effective `maxBatchSize`. -/
def executeBatch (cfg : FailureModel) (maxBatchSize : Nat) (s : Storage)
    (operations : List BatchOperation) : Storage × BatchResult :=
  execChunks cfg s (chunkList maxBatchSize operations)

/-- The value `batchLoad` records for one key (lines 182-189): the loaded
value, with a failed load caught and degraded to `null`; a miss is already
`null`.  Loads do not change the data map, so the result depends only on
the initial storage. -/
def batchLoadOne (cfg : FailureModel) (s : Storage) (k : String) : Option JSValue :=
  match adapterLoad cfg s k with
  | .error _ => none
  | .ok v => v

/-- Embeds `BatchProcessor.batchLoad` (lines 172-204): chunk the keys, load each
key of a chunk (`Promise.all` keeps the chunk's order), and assign
`result[key] = value`.  Event emission by the underlying loads is elided:
it never affects the returned mapping. -/
def batchLoad (cfg : FailureModel) (maxBatchSize : Nat) (s : Storage)
    (keys : List String) : List (String × Option JSValue) :=
  (chunkList maxBatchSize keys).foldl
    (fun acc chunk =>
      chunk.foldl (fun acc2 k => setEntry acc2 k (batchLoadOne cfg s k)) acc)
    []

/-- Embeds `BatchProcessor.constructor` (lines 30-40): `options.maxBatchSize ||
100` — `undefined` (`none`) and the falsy `0` fall back to the default
100; every other number, including a negative one, is kept. -/
def effectiveMaxBatchSize (opt : Option Int) : Int :=
  match opt with
  | none => 100
  | some m => if m = 0 then 100 else m

/-! Section: `TransactionProcessor` (`src/utils/batch.ts` lines 217-332) -/

/-- A `TransactionProcessor`'s private state: pending operations, the
backup map (`Map<string, T | null>` — `none` is the stored `null`
absent-marker), and the two terminal-state flags. -/
structure Transaction where
  operations : List BatchOperation := []
  backupData : List (String × Option JSValue) := []
  isCommitted : Bool := false
  isRolledBack : Bool := false
deriving DecidableEq, Repr

/-- Embeds `checkTransactionState` (lines 312-319): committed first, then
rolled back. -/
def checkTransactionState (tx : Transaction) : Option JSError :=
  if tx.isCommitted then some (.invalidState "Transaction has already been committed")
  else if tx.isRolledBack then some (.invalidState "Transaction has been rolled back")
  else none

/-- Embeds `TransactionProcessor.save` (lines 229-233). -/
def txSave (tx : Transaction) (k : String) (v : JSValue) : Except JSError Transaction :=
  match checkTransactionState tx with
  | some e => .error e
  | none => .ok { tx with operations := tx.operations ++ [⟨.save, k, some v⟩] }

/-- Embeds `TransactionProcessor.delete` (lines 235-239). -/
def txDelete (tx : Transaction) (k : String) : Except JSError Transaction :=
  match checkTransactionState tx with
  | some e => .error e
  | none => .ok { tx with operations := tx.operations ++ [⟨.delete, k, none⟩] }

/-- Embeds `TransactionProcessor.clear` (lines 327-331). -/
def txClear (tx : Transaction) : Except JSError Transaction :=
  match checkTransactionState tx with
  | some e => .error e
  | none => .ok { tx with operations := [], backupData := [] }

/-- Embeds `createBackup`'s loop (lines 292-304): for each operation whose key is
not yet backed up, read the current value through `DataStorage.load`; a
throwing read is caught and recorded as the `null` absent-marker. -/
def createBackupGo (cfg : FailureModel) (s : Storage)
    (backup : List (String × Option JSValue)) :
    List BatchOperation → Storage × List (String × Option JSValue)
  | [] => (s, backup)
  | op :: rest =>
      if (lookupEntry backup op.key).isSome then createBackupGo cfg s backup rest
      else
        match dsLoad cfg s op.key with
        | (s1, .error _) => createBackupGo cfg s1 (setEntry backup op.key none) rest
        | (s1, .ok v) => createBackupGo cfg s1 (setEntry backup op.key v) rest

/-- Embeds `TransactionProcessor.createBackup` (lines 292-304). -/
def createBackup (cfg : FailureModel) (s : Storage) (tx : Transaction) :
    Storage × Transaction :=
  let (s1, b) := createBackupGo cfg s tx.backupData tx.operations
  (s1, { tx with backupData := b })

/-- One backup entry replayed by `rollback` (lines 276-282): the
absent-marker deletes the key, a recorded value is saved back. -/
def restoreEntry (cfg : FailureModel) (s : Storage) (k : String)
    (v : Option JSValue) : Storage × Option JSError :=
  match v with
  | none => dsDelete cfg s k
  | some val => dsSave cfg s k (some val)

/-- Embeds `rollback`'s restore loop.  The source wraps the WHOLE `for` loop in
one try/catch, so the first failing restore aborts the iteration: entries
after it are not attempted, and the state already reflects the restores
made before the failure. -/
def restoreBackup (cfg : FailureModel) (s : Storage) :
    List (String × Option JSValue) → Storage × Option JSError
  | [] => (s, none)
  | (k, v) :: rest =>
      match restoreEntry cfg s k v with
      | (s1, none) => restoreBackup cfg s1 rest
      | (s1, some e) => (s1, some e)

/-- Embeds `TransactionProcessor.rollback` (lines 269-289): a no-op once the
transaction is rolled back or committed; otherwise replay the backup and
either mark the transaction rolled back and discard the backup, or wrap
the first failure in `Error("Rollback failed: ...")` leaving the flags and
the backup as they were. -/
def rollback (cfg : FailureModel) (s : Storage) (tx : Transaction) :
    Storage × Transaction × Option JSError :=
  if tx.isRolledBack || tx.isCommitted then (s, tx, none)
  else
    match restoreBackup cfg s tx.backupData with
    | (s1, none) => (s1, { tx with isRolledBack := true, backupData := [] }, none)
    | (s1, some e) => (s1, tx, some (.rollbackFailed ("Rollback failed: " ++ e.message)))

/-- Embeds `TransactionProcessor.commit` (lines 242-266): state check, backup,
delegate to a fresh `BatchProcessor` (default `maxBatchSize = 100`), then
either commit, or roll back and return the failed result.  A rollback that
throws does so inside the `try`, so the `catch` block runs `rollback()`
a second time (the first attempt never set `isRolledBack`) and rethrows —
if the second attempt also throws, its error propagates instead.
`createBackup` and `executeBatch` catch all their internal failures, so
the `catch` is reachable only through the failing-rollback path. -/
def commit (cfg : FailureModel) (s : Storage) (tx : Transaction) :
    Storage × Transaction × Except JSError BatchResult :=
  match checkTransactionState tx with
  | some e => (s, tx, .error e)
  | none =>
      let (s1, tx1) := createBackup cfg s tx
      let (s2, result) := executeBatch cfg 100 s1 tx1.operations
      if result.success then
        (s2, { tx1 with isCommitted := true, backupData := [] }, .ok result)
      else
        match rollback cfg s2 tx1 with
        | (s3, tx3, none) => (s3, tx3, .ok result)
        | (s3, tx3, some e1) =>
            match rollback cfg s3 tx3 with
            | (s4, tx4, none) => (s4, tx4, .error e1)
            | (s4, tx4, some e2) => (s4, tx4, .error e2)


/-- The pre-image that `createBackup` records for a key (lines 295-301):
the value read through the backend (loads are state-independent), with a
throwing read caught and recorded as the `null` absent-marker; a miss is
already `null`. -/
def backupValue (cfg : FailureModel) (s : Storage) (k : String) : Option JSValue :=
  match adapterLoad cfg s k with
  | .error _ => none
  | .ok v => v

/-- Projects the overall `success` flag out of a `commit` outcome: `some`
of the returned `BatchResult.success` when the call returned, `none` when
it threw. -/
def commitReportedSuccess : Except JSError BatchResult → Option Bool
  | .ok r => some r.success
  | .error _ => none

/-! Section: basic facts about chunking -/

theorem chunkListGo_flatten (s : Nat) :
    ∀ (fuel : Nat) (l : List α), l.length ≤ fuel →
      (chunkListGo (s + 1) fuel l).flatten = l
  | fuel, [], _ => by cases fuel <;> simp [chunkListGo]
  | 0, x :: xs, h => by simp at h
  | fuel + 1, x :: xs, h => by
      have hlen : ((x :: xs).drop (s + 1)).length ≤ fuel := by
        simp only [List.length_drop, List.length_cons] at h ⊢
        omega
      rw [chunkListGo]
      rw [List.flatten_cons, chunkListGo_flatten s fuel _ hlen, List.take_append_drop]

theorem chunkList_flatten (s : Nat) (l : List α) :
    (chunkList (s + 1) l).flatten = l :=
  chunkListGo_flatten s l.length l (le_refl _)

theorem chunkListGo_mem_bounds (s : Nat) :
    ∀ (fuel : Nat) (l : List α), ∀ c ∈ chunkListGo (s + 1) fuel l,
      c.length ≤ s + 1 ∧ c ≠ []
  | fuel, [] => by cases fuel <;> simp [chunkListGo]
  | 0, x :: xs => by simp [chunkListGo]
  | fuel + 1, x :: xs => by
      intro c hc
      rw [chunkListGo] at hc
      rcases List.mem_cons.mp hc with hc | hc
      · subst hc
        constructor
        · simp [List.length_take]
        · simp
      · exact chunkListGo_mem_bounds s fuel ((x :: xs).drop (s + 1)) c hc

theorem chunkList_mem_bounds (s : Nat) (l : List α) :
    ∀ c ∈ chunkList (s + 1) l, c.length ≤ s + 1 ∧ c ≠ [] :=
  chunkListGo_mem_bounds s l.length l

/-! Section: shape of per-operation results -/

theorem execOne_operation (cfg : FailureModel) (s : Storage) (op : BatchOperation) :
    (execOne cfg s op).2.1.operation = op := by
  cases hop : op.type
  · rcases h : dsSave cfg s op.key op.value with ⟨s1, e⟩
    cases e <;> simp [execOne, hop, h]
  · rcases h : dsDelete cfg s op.key with ⟨s1, e⟩
    cases e <;> simp [execOne, hop, h]

theorem execOne_error_matches_success (cfg : FailureModel) (s : Storage)
    (op : BatchOperation) :
    ((execOne cfg s op).2.2 = none ∧ (execOne cfg s op).2.1.success = true) ∨
      ((execOne cfg s op).2.2.isSome ∧ (execOne cfg s op).2.1.success = false) := by
  cases hop : op.type
  · rcases h : dsSave cfg s op.key op.value with ⟨s1, e⟩
    cases e
    · left; simp [execOne, hop, h]
    · right; simp [execOne, hop, h]
  · rcases h : dsDelete cfg s op.key with ⟨s1, e⟩
    cases e
    · left; simp [execOne, hop, h]
    · right; simp [execOne, hop, h]

theorem execOpList_operations (cfg : FailureModel) :
    ∀ (ops : List BatchOperation) (s : Storage),
      ((execOpList cfg s ops).2.1).map (fun r => r.operation) = ops := by
  intro ops
  induction ops with
  | nil => intro s; simp [execOpList]
  | cons op rest ih =>
      intro s
      rcases h1 : execOne cfg s op with ⟨s1, r, err⟩
      have hr : r.operation = op := by
        have := execOne_operation cfg s op
        rw [h1] at this
        exact this
      rcases h2 : execOpList cfg s1 rest with ⟨s2, rs, errs⟩
      have hrest := ih s1
      rw [h2] at hrest
      simp [execOpList, h1, h2, hr, hrest]

theorem execOpList_errors_count (cfg : FailureModel) :
    ∀ (ops : List BatchOperation) (s : Storage),
      ((execOpList cfg s ops).2.2).length =
        (((execOpList cfg s ops).2.1).filter (fun r => !r.success)).length := by
  intro ops
  induction ops with
  | nil => intro s; simp [execOpList]
  | cons op rest ih =>
      intro s
      rcases h1 : execOne cfg s op with ⟨s1, r, err⟩
      rcases h2 : execOpList cfg s1 rest with ⟨s2, rs, errs⟩
      have hrest := ih s1
      rw [h2] at hrest
      have hmatch := execOne_error_matches_success cfg s op
      rw [h1] at hmatch
      simp only at hmatch
      rcases hmatch with ⟨he, hs⟩ | ⟨he, hs⟩
      · subst he
        simp [execOpList, h1, h2, hs, hrest, List.filter_cons]
      · rcases Option.isSome_iff_exists.mp he with ⟨msg, hmsg⟩
        subst hmsg
        simp [execOpList, h1, h2, hs, hrest, List.filter_cons]

/-! Section: shape of chunk and batch results -/

theorem length_filter_save_add_delete (l : List BatchOperation) :
    (l.filter (fun op => op.type = OpType.save)).length +
      (l.filter (fun op => op.type = OpType.delete)).length = l.length := by
  induction l with
  | nil => rfl
  | cons op rest ih =>
      cases h : op.type <;> simp [List.filter_cons, h] <;> omega

theorem executeChunk_operations (cfg : FailureModel) (s : Storage)
    (c : List BatchOperation) :
    (executeChunk cfg s c).2.operations.map (fun r => r.operation) =
      c.filter (fun op => op.type = OpType.save) ++
        c.filter (fun op => op.type = OpType.delete) := by
  rcases h1 : execOpList cfg s (c.filter (fun op => op.type = OpType.save)) with ⟨s1, rs1, e1⟩
  rcases h2 : execOpList cfg s1 (c.filter (fun op => op.type = OpType.delete)) with ⟨s2, rs2, e2⟩
  have hm1 := execOpList_operations cfg (c.filter (fun op => op.type = OpType.save)) s
  have hm2 := execOpList_operations cfg (c.filter (fun op => op.type = OpType.delete)) s1
  rw [h1] at hm1
  rw [h2] at hm2
  simp only at hm1 hm2
  simp [executeChunk, h1, h2, hm1, hm2]

theorem executeChunk_success (cfg : FailureModel) (s : Storage)
    (c : List BatchOperation) :
    (executeChunk cfg s c).2.success =
      (executeChunk cfg s c).2.operations.all (fun r => r.success) := by
  rcases h1 : execOpList cfg s (c.filter (fun op => op.type = OpType.save)) with ⟨s1, rs1, e1⟩
  rcases h2 : execOpList cfg s1 (c.filter (fun op => op.type = OpType.delete)) with ⟨s2, rs2, e2⟩
  simp [executeChunk, h1, h2]

theorem executeChunk_errors_count (cfg : FailureModel) (s : Storage)
    (c : List BatchOperation) :
    (executeChunk cfg s c).2.errors.length =
      ((executeChunk cfg s c).2.operations.filter (fun r => !r.success)).length := by
  rcases h1 : execOpList cfg s (c.filter (fun op => op.type = OpType.save)) with ⟨s1, rs1, e1⟩
  rcases h2 : execOpList cfg s1 (c.filter (fun op => op.type = OpType.delete)) with ⟨s2, rs2, e2⟩
  have hc1 := execOpList_errors_count cfg (c.filter (fun op => op.type = OpType.save)) s
  have hc2 := execOpList_errors_count cfg (c.filter (fun op => op.type = OpType.delete)) s1
  rw [h1] at hc1
  rw [h2] at hc2
  simp only at hc1 hc2
  simp [executeChunk, h1, h2, hc1, hc2, List.filter_append]

theorem execChunks_operations (cfg : FailureModel) :
    ∀ (cs : List (List BatchOperation)) (s : Storage),
      (execChunks cfg s cs).2.operations.map (fun r => r.operation) =
        (cs.map (fun c => c.filter (fun op => op.type = OpType.save) ++
          c.filter (fun op => op.type = OpType.delete))).flatten := by
  intro cs
  induction cs with
  | nil => intro s; simp [execChunks]
  | cons c rest ih =>
      intro s
      rcases h1 : executeChunk cfg s c with ⟨s1, r1⟩
      rcases h2 : execChunks cfg s1 rest with ⟨s2, r2⟩
      have hc := executeChunk_operations cfg s c
      rw [h1] at hc
      have hrest := ih s1
      rw [h2] at hrest
      simp only at hc hrest
      simp [execChunks, h1, h2, hc, hrest]

theorem execChunks_success (cfg : FailureModel) :
    ∀ (cs : List (List BatchOperation)) (s : Storage),
      (execChunks cfg s cs).2.success =
        (execChunks cfg s cs).2.operations.all (fun r => r.success) := by
  intro cs
  induction cs with
  | nil => intro s; simp [execChunks]
  | cons c rest ih =>
      intro s
      rcases h1 : executeChunk cfg s c with ⟨s1, r1⟩
      rcases h2 : execChunks cfg s1 rest with ⟨s2, r2⟩
      have hc := executeChunk_success cfg s c
      rw [h1] at hc
      have hrest := ih s1
      rw [h2] at hrest
      simp only at hc hrest
      simp [execChunks, h1, h2, hc, hrest, List.all_append]

theorem execChunks_errors_count (cfg : FailureModel) :
    ∀ (cs : List (List BatchOperation)) (s : Storage),
      (execChunks cfg s cs).2.errors.length =
        ((execChunks cfg s cs).2.operations.filter (fun r => !r.success)).length := by
  intro cs
  induction cs with
  | nil => intro s; simp [execChunks]
  | cons c rest ih =>
      intro s
      rcases h1 : executeChunk cfg s c with ⟨s1, r1⟩
      rcases h2 : execChunks cfg s1 rest with ⟨s2, r2⟩
      have hc := executeChunk_errors_count cfg s c
      rw [h1] at hc
      have hrest := ih s1
      rw [h2] at hrest
      simp only at hc hrest
      simp [execChunks, h1, h2, hc, hrest, List.filter_append]

theorem executeBatch_operations_map (cfg : FailureModel) (size : Nat) (s : Storage)
    (ops : List BatchOperation) :
    (executeBatch cfg size s ops).2.operations.map (fun r => r.operation) =
      ((chunkList size ops).map (fun c =>
        c.filter (fun op => op.type = OpType.save) ++
          c.filter (fun op => op.type = OpType.delete))).flatten :=
  execChunks_operations cfg (chunkList size ops) s

theorem executeBatch_length (cfg : FailureModel) (size : Nat) (s : Storage)
    (ops : List BatchOperation) (h : 0 < size) :
    (executeBatch cfg size s ops).2.operations.length = ops.length := by
  obtain ⟨t, rfl⟩ : ∃ t, size = t + 1 := ⟨size - 1, by omega⟩
  have hmap := executeBatch_operations_map cfg (t + 1) s ops
  have hlen : (executeBatch cfg (t + 1) s ops).2.operations.length =
      (((chunkList (t + 1) ops).map (fun c =>
        c.filter (fun op => op.type = OpType.save) ++
          c.filter (fun op => op.type = OpType.delete))).flatten).length := by
    rw [← hmap, List.length_map]
  rw [hlen, List.length_flatten, List.map_map]
  have hpt : ∀ c : List BatchOperation,
      ((c.filter (fun op => op.type = OpType.save) ++
        c.filter (fun op => op.type = OpType.delete)).length) = c.length := by
    intro c
    rw [List.length_append]
    exact length_filter_save_add_delete c
  have hcongr : (chunkList (t + 1) ops).map
        (List.length ∘ fun c =>
          c.filter (fun op => op.type = OpType.save) ++
            c.filter (fun op => op.type = OpType.delete)) =
      (chunkList (t + 1) ops).map List.length := by
    apply List.map_congr_left
    intro c _
    exact hpt c
  rw [hcongr, ← List.length_flatten, chunkList_flatten]

/-! Section: facts about batchLoad's result map -/

theorem foldl_chunkListGo (f : β → String → β) (t : Nat) :
    ∀ (fuel : Nat) (l : List String) (init : β), l.length ≤ fuel →
      (chunkListGo (t + 1) fuel l).foldl (fun acc c => c.foldl f acc) init =
        l.foldl f init
  | fuel, [], init, _ => by cases fuel <;> simp [chunkListGo]
  | 0, x :: xs, init, h => by simp at h
  | fuel + 1, x :: xs, init, h => by
      have hlen : ((x :: xs).drop (t + 1)).length ≤ fuel := by
        simp only [List.length_drop, List.length_cons] at h ⊢
        omega
      rw [chunkListGo, List.foldl_cons,
        foldl_chunkListGo f t fuel _ (((x :: xs).take (t + 1)).foldl f init) hlen,
        ← List.foldl_append, List.take_append_drop]

theorem foldl_chunkList (f : β → String → β) (t : Nat) (l : List String) (init : β) :
    (chunkList (t + 1) l).foldl (fun acc c => c.foldl f acc) init = l.foldl f init :=
  foldl_chunkListGo f t l.length l init (le_refl _)

theorem foldl_setEntry_lookup (f : String → α) :
    ∀ (ks : List String) (m0 : List (String × α)) (k : String),
      lookupEntry (ks.foldl (fun m k0 => setEntry m k0 (f k0)) m0) k =
        if k ∈ ks then some (f k) else lookupEntry m0 k := by
  intro ks
  induction ks with
  | nil => intro m0 k; simp
  | cons k0 rest ih =>
      intro m0 k
      rw [List.foldl_cons, ih]
      by_cases hmem : k ∈ rest
      · simp [hmem]
      · by_cases hk : k = k0
        · subst hk
          simp [hmem, lookupEntry_setEntry_self]
        · have : ¬(k ∈ k0 :: rest) := by
            intro hc
            rcases List.mem_cons.mp hc with hc | hc
            · exact hk hc
            · exact hmem hc
          simp [hmem, this, lookupEntry_setEntry_ne m0 k0 k (f k0) hk]

theorem foldl_setEntry_nodup (f : String → α) :
    ∀ (ks : List String) (m0 : List (String × α)),
      (entryKeys m0).Nodup →
        (entryKeys (ks.foldl (fun m k0 => setEntry m k0 (f k0)) m0)).Nodup := by
  intro ks
  induction ks with
  | nil => intro m0 h; simpa
  | cons k0 rest ih =>
      intro m0 h
      rw [List.foldl_cons]
      exact ih _ (nodup_entryKeys_setEntry m0 k0 (f k0) h)

theorem foldl_setEntry_mem (f : String → α) :
    ∀ (ks : List String) (m0 : List (String × α)) (k : String),
      (k ∈ entryKeys (ks.foldl (fun m k0 => setEntry m k0 (f k0)) m0) ↔
        k ∈ entryKeys m0 ∨ k ∈ ks) := by
  intro ks m0 k
  rw [mem_entryKeys_iff_lookup_isSome, foldl_setEntry_lookup]
  by_cases hmem : k ∈ ks
  · simp [hmem]
  · simp [hmem, mem_entryKeys_iff_lookup_isSome]

/-! Section: case analyses of the facade operations -/

theorem dsSave_cases (cfg : FailureModel) (s : Storage) (k : String) (v : Option JSValue) :
    (validateData v = false ∧ dsSave cfg s k v = (s, some .validation)) ∨
    (validateData v = true ∧ k ∈ cfg.saveFails ∧
      dsSave cfg s k v = (s, some (.backendSave k))) ∨
    (validateData v = true ∧ k ∉ cfg.saveFails ∧ ∃ val, v = some val ∧ ∃ ev,
      dsSave cfg s k v =
        ({ data := setEntry s.data k val, emitMode := s.emitMode,
           events := s.events ++ [ev] }, none)) := by
  cases v with
  | none => left; exact ⟨rfl, rfl⟩
  | some val =>
      by_cases hv : validateData (some val)
      · by_cases hk : k ∈ cfg.saveFails
        · right; left
          refine ⟨hv, hk, ?_⟩
          simp [dsSave, adapterSave, hv, hk]
        · right; right
          refine ⟨hv, hk, val, rfl, ?_⟩
          by_cases hm : s.emitMode = .all
          · exact ⟨.change (setEntry s.data k val), by simp [dsSave, adapterSave, hv, hk, hm]⟩
          · exact ⟨.saveEvt k val, by simp [dsSave, adapterSave, hv, hk, hm]⟩
      · left
        constructor
        · exact Bool.not_eq_true _ ▸ (by simpa using hv)
        · simp [dsSave, hv]

theorem dsDelete_cases (cfg : FailureModel) (s : Storage) (k : String) :
    (s.emitMode = .info ∧ k ∈ cfg.loadFails ∧
      dsDelete cfg s k = (s, some (.backendLoad k))) ∨
    ((s.emitMode = .info → k ∉ cfg.loadFails) ∧ k ∈ cfg.deleteFails ∧
      dsDelete cfg s k = (s, some (.backendDelete k))) ∨
    ((s.emitMode = .info → k ∉ cfg.loadFails) ∧ k ∉ cfg.deleteFails ∧ ∃ ev,
      dsDelete cfg s k =
        ({ data := eraseEntry s.data k, emitMode := s.emitMode,
           events := s.events ++ [ev] }, none)) := by
  by_cases hm : s.emitMode = .info
  · by_cases hl : k ∈ cfg.loadFails
    · left
      exact ⟨hm, hl, by simp [dsDelete, adapterLoad, hm, hl]⟩
    · by_cases hd : k ∈ cfg.deleteFails
      · right; left
        exact ⟨fun _ => hl, hd, by simp [dsDelete, adapterLoad, adapterDelete, hm, hl, hd]⟩
      · right; right
        refine ⟨fun _ => hl, hd, ?_⟩
        exact ⟨.deleteEvt k (lookupEntry s.data k),
          by simp [dsDelete, adapterLoad, adapterDelete, hm, hl, hd]⟩
  · by_cases hd : k ∈ cfg.deleteFails
    · right; left
      exact ⟨fun hc => absurd hc hm, hd, by simp [dsDelete, adapterDelete, hm, hd]⟩
    · right; right
      refine ⟨fun hc => absurd hc hm, hd, ?_⟩
      refine ⟨.change (eraseEntry s.data k), ?_⟩
      have hall : s.emitMode = .all := by
        cases he : s.emitMode
        · rfl
        · exact absurd he hm
      simp [dsDelete, adapterDelete, hm, hd, hall]

theorem dsLoad_state (cfg : FailureModel) (s : Storage) (k : String) :
    (dsLoad cfg s k).1.data = s.data ∧ (dsLoad cfg s k).1.emitMode = s.emitMode := by
  unfold dsLoad adapterLoad
  by_cases hk : k ∈ cfg.loadFails
  · simp [hk]
  · simp only [hk, if_neg, ite_false]
    cases hv : lookupEntry s.data k with
    | none => simp
    | some d =>
        by_cases hm : s.emitMode = .info
        · simp [hm]
        · simp [hm]

theorem dsLoad_value (cfg : FailureModel) (s : Storage) (k : String) :
    (dsLoad cfg s k).2 = adapterLoad cfg s k := by
  unfold dsLoad
  cases hv : adapterLoad cfg s k with
  | error e => simp
  | ok d =>
      cases d with
      | none => simp
      | some val =>
          by_cases hm : s.emitMode = .info
          · simp [hm]
          · simp [hm]

/-! Section: the batch pipeline preserves the emission mode and key uniqueness -/

theorem dsSave_preserves (cfg : FailureModel) (s : Storage) (k : String)
    (v : Option JSValue) :
    (dsSave cfg s k v).1.emitMode = s.emitMode ∧
      ((entryKeys s.data).Nodup → (entryKeys (dsSave cfg s k v).1.data).Nodup) := by
  rcases dsSave_cases cfg s k v with ⟨_, h⟩ | ⟨_, _, h⟩ | ⟨_, _, val, _, ev, h⟩ <;> rw [h]
  · exact ⟨rfl, fun hn => hn⟩
  · exact ⟨rfl, fun hn => hn⟩
  · exact ⟨rfl, fun hn => nodup_entryKeys_setEntry s.data k val hn⟩

theorem dsDelete_preserves (cfg : FailureModel) (s : Storage) (k : String) :
    (dsDelete cfg s k).1.emitMode = s.emitMode ∧
      ((entryKeys s.data).Nodup → (entryKeys (dsDelete cfg s k).1.data).Nodup) := by
  rcases dsDelete_cases cfg s k with ⟨_, _, h⟩ | ⟨_, _, h⟩ | ⟨_, _, ev, h⟩ <;> rw [h]
  · exact ⟨rfl, fun hn => hn⟩
  · exact ⟨rfl, fun hn => hn⟩
  · exact ⟨rfl, fun hn => nodup_entryKeys_eraseEntry s.data k hn⟩

theorem execOne_preserves (cfg : FailureModel) (s : Storage) (op : BatchOperation) :
    (execOne cfg s op).1.emitMode = s.emitMode ∧
      ((entryKeys s.data).Nodup → (entryKeys (execOne cfg s op).1.data).Nodup) := by
  cases hop : op.type
  · rcases h : dsSave cfg s op.key op.value with ⟨s1, e⟩
    have := dsSave_preserves cfg s op.key op.value
    rw [h] at this
    cases e <;> simpa [execOne, hop, h] using this
  · rcases h : dsDelete cfg s op.key with ⟨s1, e⟩
    have := dsDelete_preserves cfg s op.key
    rw [h] at this
    cases e <;> simpa [execOne, hop, h] using this

theorem execOpList_preserves (cfg : FailureModel) :
    ∀ (ops : List BatchOperation) (s : Storage),
      (execOpList cfg s ops).1.emitMode = s.emitMode ∧
        ((entryKeys s.data).Nodup → (entryKeys (execOpList cfg s ops).1.data).Nodup) := by
  intro ops
  induction ops with
  | nil => intro s; exact ⟨rfl, fun hn => hn⟩
  | cons op rest ih =>
      intro s
      rcases h1 : execOne cfg s op with ⟨s1, r, err⟩
      have hone := execOne_preserves cfg s op
      rw [h1] at hone
      have hrest := ih s1
      rcases h2 : execOpList cfg s1 rest with ⟨s2, rs, errs⟩
      rw [h2] at hrest
      simp only at hone hrest
      constructor
      · show (execOpList cfg s (op :: rest)).1.emitMode = s.emitMode
        simp only [execOpList, h1, h2]
        rw [hrest.1, hone.1]
      · intro hn
        show (entryKeys (execOpList cfg s (op :: rest)).1.data).Nodup
        simp only [execOpList, h1, h2]
        exact hrest.2 (hone.2 hn)

theorem execChunks_preserves (cfg : FailureModel) :
    ∀ (cs : List (List BatchOperation)) (s : Storage),
      (execChunks cfg s cs).1.emitMode = s.emitMode ∧
        ((entryKeys s.data).Nodup → (entryKeys (execChunks cfg s cs).1.data).Nodup) := by
  intro cs
  induction cs with
  | nil => intro s; exact ⟨rfl, fun hn => hn⟩
  | cons c rest ih =>
      intro s
      rcases h0 : execOpList cfg s (c.filter (fun op => op.type = OpType.save)) with ⟨sa, rsa, ea⟩
      have ha := execOpList_preserves cfg (c.filter (fun op => op.type = OpType.save)) s
      rw [h0] at ha
      rcases h1 : execOpList cfg sa (c.filter (fun op => op.type = OpType.delete)) with ⟨sb, rsb, eb⟩
      have hb := execOpList_preserves cfg (c.filter (fun op => op.type = OpType.delete)) sa
      rw [h1] at hb
      have hchunk : (executeChunk cfg s c).1 = sb := by
        simp [executeChunk, h0, h1]
      rcases h2 : execChunks cfg sb rest with ⟨s2, r2⟩
      have hrest := ih sb
      rw [h2] at hrest
      simp only at ha hb hrest
      constructor
      · show (execChunks cfg s (c :: rest)).1.emitMode = s.emitMode
        simp only [execChunks, hchunk, h2]
        rw [hrest.1, hb.1, ha.1]
      · intro hn
        show (entryKeys (execChunks cfg s (c :: rest)).1.data).Nodup
        simp only [execChunks, hchunk, h2]
        exact hrest.2 (hb.2 (ha.2 hn))

theorem executeBatch_preserves (cfg : FailureModel) (size : Nat) (s : Storage)
    (ops : List BatchOperation) :
    (executeBatch cfg size s ops).1.emitMode = s.emitMode ∧
      ((entryKeys s.data).Nodup →
        (entryKeys (executeBatch cfg size s ops).1.data).Nodup) :=
  execChunks_preserves cfg (chunkList size ops) s

/-! Section: facts about backup creation -/

theorem backupValue_congr (cfg : FailureModel) (s s2 : Storage) (k : String)
    (h : s.data = s2.data) : backupValue cfg s k = backupValue cfg s2 k := by
  unfold backupValue adapterLoad
  rw [h]

theorem createBackupGo_state (cfg : FailureModel) :
    ∀ (ops : List BatchOperation) (s : Storage) (b : List (String × Option JSValue)),
      (createBackupGo cfg s b ops).1.data = s.data ∧
        (createBackupGo cfg s b ops).1.emitMode = s.emitMode := by
  intro ops
  induction ops with
  | nil => intro s b; exact ⟨rfl, rfl⟩
  | cons op rest ih =>
      intro s b
      by_cases hhas : (lookupEntry b op.key).isSome
      · simpa [createBackupGo, hhas] using ih s b
      · rcases hld : dsLoad cfg s op.key with ⟨s1, res⟩
        have hst := dsLoad_state cfg s op.key
        rw [hld] at hst
        simp only at hst
        cases res with
        | error e =>
            have := ih s1 (setEntry b op.key none)
            simp only [createBackupGo, hhas, hld]
            simp only [Bool.false_eq_true, if_neg, ite_false]
            rw [this.1, this.2, hst.1, hst.2]
            exact ⟨rfl, rfl⟩
        | ok v =>
            have := ih s1 (setEntry b op.key v)
            simp only [createBackupGo, hhas, hld]
            simp only [Bool.false_eq_true, if_neg, ite_false]
            rw [this.1, this.2, hst.1, hst.2]
            exact ⟨rfl, rfl⟩

theorem createBackupGo_nodup (cfg : FailureModel) :
    ∀ (ops : List BatchOperation) (s : Storage) (b : List (String × Option JSValue)),
      (entryKeys b).Nodup → (entryKeys (createBackupGo cfg s b ops).2).Nodup := by
  intro ops
  induction ops with
  | nil => intro s b h; exact h
  | cons op rest ih =>
      intro s b h
      by_cases hhas : (lookupEntry b op.key).isSome
      · simpa [createBackupGo, hhas] using ih s b h
      · rcases hld : dsLoad cfg s op.key with ⟨s1, res⟩
        cases res with
        | error e =>
            simp only [createBackupGo, hhas, hld, Bool.false_eq_true, if_neg, ite_false]
            exact ih s1 _ (nodup_entryKeys_setEntry b op.key none h)
        | ok v =>
            simp only [createBackupGo, hhas, hld, Bool.false_eq_true, if_neg, ite_false]
            exact ih s1 _ (nodup_entryKeys_setEntry b op.key v h)

theorem createBackupGo_preserved (cfg : FailureModel) :
    ∀ (ops : List BatchOperation) (s : Storage) (b : List (String × Option JSValue))
      (k : String), (lookupEntry b k).isSome →
      lookupEntry (createBackupGo cfg s b ops).2 k = lookupEntry b k := by
  intro ops
  induction ops with
  | nil => intro s b k _; rfl
  | cons op rest ih =>
      intro s b k hk
      by_cases hhas : (lookupEntry b op.key).isSome
      · simpa [createBackupGo, hhas] using ih s b k hk
      · have hne : k ≠ op.key := by
          intro he
          rw [he] at hk
          exact hhas hk
        rcases hld : dsLoad cfg s op.key with ⟨s1, res⟩
        cases res with
        | error e =>
            simp only [createBackupGo, hhas, hld, Bool.false_eq_true, if_neg, ite_false]
            rw [ih s1 _ k (by rw [lookupEntry_setEntry_ne b op.key k none hne]; exact hk),
              lookupEntry_setEntry_ne b op.key k none hne]
        | ok v =>
            simp only [createBackupGo, hhas, hld, Bool.false_eq_true, if_neg, ite_false]
            rw [ih s1 _ k (by rw [lookupEntry_setEntry_ne b op.key k v hne]; exact hk),
              lookupEntry_setEntry_ne b op.key k v hne]

theorem createBackupGo_new (cfg : FailureModel) :
    ∀ (ops : List BatchOperation) (s : Storage) (b : List (String × Option JSValue))
      (k : String), lookupEntry b k = none →
      lookupEntry (createBackupGo cfg s b ops).2 k =
        if k ∈ ops.map (fun op => op.key) then some (backupValue cfg s k) else none := by
  intro ops
  induction ops with
  | nil => intro s b k hk; simpa [createBackupGo]
  | cons op rest ih =>
      intro s b k hk
      by_cases hkey : k = op.key
      · rw [hkey] at hk
        have hhas : ¬(lookupEntry b op.key).isSome = true := by rw [hk]; simp
        rcases hld : dsLoad cfg s op.key with ⟨s1, res⟩
        have hval := dsLoad_value cfg s op.key
        rw [hld] at hval
        simp only at hval
        have hmem : k ∈ (op :: rest).map (fun op => op.key) := by simp [hkey]
        rw [if_pos hmem]
        cases res with
        | error e =>
            simp only [createBackupGo, hhas, hld, Bool.false_eq_true, if_neg, ite_false]
            rw [hkey, createBackupGo_preserved cfg rest s1 _ op.key
              (by rw [lookupEntry_setEntry_self]; rfl), lookupEntry_setEntry_self]
            have hbv : backupValue cfg s op.key = none := by
              unfold backupValue
              rw [← hval]
            rw [hbv]
        | ok v =>
            simp only [createBackupGo, hhas, hld, Bool.false_eq_true, if_neg, ite_false]
            rw [hkey, createBackupGo_preserved cfg rest s1 _ op.key
              (by rw [lookupEntry_setEntry_self]; rfl), lookupEntry_setEntry_self]
            have hbv : backupValue cfg s op.key = v := by
              unfold backupValue
              rw [← hval]
            rw [hbv]
      · have hmem : (k ∈ (op :: rest).map (fun op => op.key)) ↔
            (k ∈ rest.map (fun op => op.key)) := by
          simp [hkey]
        by_cases hhas : (lookupEntry b op.key).isSome
        · have := ih s b k hk
          simp only [createBackupGo, hhas, ite_true]
          rw [this]
          exact (if_congr hmem rfl rfl).symm
        · rcases hld : dsLoad cfg s op.key with ⟨s1, res⟩
          have hst := dsLoad_state cfg s op.key
          rw [hld] at hst
          simp only at hst
          have hbv : backupValue cfg s1 k = backupValue cfg s k :=
            backupValue_congr cfg s1 s k hst.1
          have hne2 : ∀ v, lookupEntry (setEntry b op.key v) k = none := by
            intro v
            rw [lookupEntry_setEntry_ne b op.key k v hkey]; exact hk
          cases res with
          | error e =>
              simp only [createBackupGo, hhas, hld, Bool.false_eq_true, if_neg, ite_false]
              rw [ih s1 _ k (hne2 none), hbv]
              exact (if_congr hmem rfl rfl).symm
          | ok v =>
              simp only [createBackupGo, hhas, hld, Bool.false_eq_true, if_neg, ite_false]
              rw [ih s1 _ k (hne2 v), hbv]
              exact (if_congr hmem rfl rfl).symm

/-! Section: restore succeeds on a failure-free backend -/

theorem dsSave_ok (cfg : FailureModel) (s : Storage) (k : String) (val : JSValue)
    (hv : validateData (some val) = true) (hk : k ∉ cfg.saveFails) :
    (dsSave cfg s k (some val)).1.data = setEntry s.data k val ∧
      (dsSave cfg s k (some val)).2 = none := by
  rcases dsSave_cases cfg s k (some val) with ⟨hbad, _⟩ | ⟨_, hmem, _⟩ |
    ⟨_, _, val2, heq, ev, h⟩
  · rw [hv] at hbad; cases hbad
  · exact absurd hmem hk
  · have : val2 = val := by injection heq.symm
    subst this
    rw [h]
    exact ⟨rfl, rfl⟩

theorem dsDelete_ok (cfg : FailureModel) (s : Storage) (k : String)
    (hl : k ∉ cfg.loadFails) (hd : k ∉ cfg.deleteFails) :
    (dsDelete cfg s k).1.data = eraseEntry s.data k ∧
      (dsDelete cfg s k).2 = none := by
  rcases dsDelete_cases cfg s k with ⟨_, hmem, _⟩ | ⟨_, hmem, _⟩ | ⟨_, _, ev, h⟩
  · exact absurd hmem hl
  · exact absurd hmem hd
  · rw [h]
    exact ⟨rfl, rfl⟩

theorem restoreBackup_ok (cfg : FailureModel)
    (hsf : cfg.saveFails = []) (hlf : cfg.loadFails = []) (hdf : cfg.deleteFails = []) :
    ∀ (b : List (String × Option JSValue)) (s : Storage),
      (entryKeys s.data).Nodup → (entryKeys b).Nodup →
      (∀ k val, lookupEntry b k = some (some val) → validateData (some val) = true) →
      (restoreBackup cfg s b).2 = none ∧
        (entryKeys (restoreBackup cfg s b).1.data).Nodup ∧
        (∀ k v, lookupEntry b k = some v →
          lookupEntry (restoreBackup cfg s b).1.data k = v) ∧
        (∀ k, lookupEntry b k = none →
          lookupEntry (restoreBackup cfg s b).1.data k = lookupEntry s.data k) := by
  intro b
  induction b with
  | nil =>
      intro s hs _ _
      refine ⟨rfl, hs, ?_, ?_⟩
      · intro k v hkv
        simp [lookupEntry] at hkv
      · intro k _
        rfl
  | cons p rest ih =>
      obtain ⟨k0, v0⟩ := p
      intro s hs hb hvalid
      rw [entryKeys_cons, List.nodup_cons] at hb
      have hk0rest : lookupEntry rest k0 = none := by
        cases hl : lookupEntry rest k0 with
        | none => rfl
        | some w =>
            exact absurd ((mem_entryKeys_iff_lookup_isSome rest k0).mpr (by simp [hl])) hb.1
      have hlookup_cons : ∀ (k : String), ¬(k0 = k) →
          lookupEntry ((k0, v0) :: rest) k = lookupEntry rest k := by
        intro k h
        simp [lookupEntry, h]
      have hself : lookupEntry ((k0, v0) :: rest) k0 = some v0 := by
        simp [lookupEntry]
      have hstep : ∃ s1, restoreEntry cfg s k0 v0 = (s1, none) ∧
          s1.data = v0.elim (eraseEntry s.data k0) (fun val => setEntry s.data k0 val) := by
        cases v0 with
        | none =>
            have hdel := dsDelete_ok cfg s k0 (by simp [hlf]) (by simp [hdf])
            refine ⟨(dsDelete cfg s k0).1, ?_, ?_⟩
            · show dsDelete cfg s k0 = ((dsDelete cfg s k0).1, none)
              rw [← hdel.2]
            · simpa using hdel.1
        | some val =>
            have hv : validateData (some val) = true := hvalid k0 val hself
            have hsv := dsSave_ok cfg s k0 val hv (by simp [hsf])
            refine ⟨(dsSave cfg s k0 (some val)).1, ?_, ?_⟩
            · show dsSave cfg s k0 (some val) = ((dsSave cfg s k0 (some val)).1, none)
              rw [← hsv.2]
            · simpa using hsv.1
      rcases hstep with ⟨s1, hre, hdata⟩
      have hs1 : (entryKeys s1.data).Nodup := by
        rw [hdata]
        cases v0 with
        | none => exact nodup_entryKeys_eraseEntry s.data k0 hs
        | some val => exact nodup_entryKeys_setEntry s.data k0 val hs
      have hvrest : ∀ k val, lookupEntry rest k = some (some val) →
          validateData (some val) = true := by
        intro k val hkv
        have hkne : ¬(k0 = k) := by
          intro he
          rw [← he, hk0rest] at hkv
          cases hkv
        exact hvalid k val (by rw [hlookup_cons k hkne]; exact hkv)
      have hrec := ih s1 hs1 hb.2 hvrest
      have hrb : restoreBackup cfg s ((k0, v0) :: rest) = restoreBackup cfg s1 rest := by
        show (match restoreEntry cfg s k0 v0 with
          | (s2, none) => restoreBackup cfg s2 rest
          | (s2, some e) => (s2, some e)) = restoreBackup cfg s1 rest
        rw [hre]
      rw [hrb]
      refine ⟨hrec.1, hrec.2.1, ?_, ?_⟩
      · intro k v hkv
        by_cases hkne : k0 = k
        · subst hkne
          rw [hself] at hkv
          injection hkv with hv0
          rw [← hv0]
          rw [hrec.2.2.2 k0 hk0rest, hdata]
          cases v0 with
          | none => exact lookupEntry_eraseEntry_self s.data k0 hs
          | some val => exact lookupEntry_setEntry_self s.data k0 val
        · rw [hlookup_cons k hkne] at hkv
          exact hrec.2.2.1 k v hkv
      · intro k hknone
        have hkne : ¬(k0 = k) := by
          intro he
          rw [← he, hself] at hknone
          cases hknone
        rw [hlookup_cons k hkne] at hknone
        rw [hrec.2.2.2 k hknone, hdata]
        cases v0 with
        | none => exact lookupEntry_eraseEntry_ne s.data k0 k (fun h => hkne h.symm)
        | some val => exact lookupEntry_setEntry_ne s.data k0 k val (fun h => hkne h.symm)

theorem restoreBackup_append_of_ok (cfg : FailureModel) :
    ∀ (pre : List (String × Option JSValue)) (s s1 : Storage)
      (l : List (String × Option JSValue)),
      restoreBackup cfg s pre = (s1, none) →
      restoreBackup cfg s (pre ++ l) = restoreBackup cfg s1 l := by
  intro pre
  induction pre with
  | nil =>
      intro s s1 l h
      have hs : s = s1 := congrArg Prod.fst h
      rw [List.nil_append, hs]
  | cons p rest ih =>
      obtain ⟨k0, v0⟩ := p
      intro s s1 l h
      rcases hre : restoreEntry cfg s k0 v0 with ⟨s2, e⟩
      have hunfold : ∀ (tl : List (String × Option JSValue)),
          restoreBackup cfg s ((k0, v0) :: tl) =
            (match restoreEntry cfg s k0 v0 with
              | (s2, none) => restoreBackup cfg s2 tl
              | (s2, some e) => (s2, some e)) := fun _ => rfl
      cases e with
      | none =>
          rw [hunfold rest, hre] at h
          rw [List.cons_append, hunfold (rest ++ l), hre]
          exact ih s2 s1 l h
      | some err =>
          rw [hunfold rest, hre] at h
          exact Option.noConfusion (congrArg Prod.snd h)

/-- C2 (amended): against a backend that does not fail on any operation
(so the backup reads accurately capture the pre-commit state and the
rollback writes succeed), with well-formed storage whose stored values are
themselves valid, a `commit()` that reports failure leaves every key
referenced by the transaction's operations with exactly its pre-commit
value (absent keys are absent again).  Without the failure-free-backend
hypothesis the property fails: a backend read failure during backup is
recorded as the absent-marker and rollback then deletes a key that held a
value. -/
theorem commit_failure_restores_touched_keys (cfg : FailureModel) (s : Storage)
    (tx : Transaction)
    (hsf : cfg.saveFails = []) (hlf : cfg.loadFails = []) (hdf : cfg.deleteFails = [])
    (hnodup : (entryKeys s.data).Nodup)
    (hvalid : ∀ k val, lookupEntry s.data k = some val → validateData (some val) = true)
    (hc : tx.isCommitted = false) (hr : tx.isRolledBack = false)
    (hb : tx.backupData = []) :
    ∃ r, (commit cfg s tx).2.2 = Except.ok r ∧
      (r.success = false →
        ∀ k, k ∈ tx.operations.map (fun op => op.key) →
          lookupEntry (commit cfg s tx).1.data k = lookupEntry s.data k) := by
  have hcheck : checkTransactionState tx = none := by
    simp [checkTransactionState, hc, hr]
  rcases hcb : createBackupGo cfg s tx.backupData tx.operations with ⟨s1, b⟩
  have hcbs : createBackup cfg s tx = (s1, { tx with backupData := b }) := by
    simp [createBackup, hcb]
  have hstate := createBackupGo_state cfg tx.operations s tx.backupData
  rw [hcb] at hstate
  simp only at hstate
  have hbval : ∀ k, backupValue cfg s k = lookupEntry s.data k := by
    intro k
    unfold backupValue adapterLoad
    simp [hlf]
  have hcontent : ∀ k, lookupEntry b k =
      if k ∈ tx.operations.map (fun op => op.key)
        then some (lookupEntry s.data k) else none := by
    intro k
    have h0 : lookupEntry tx.backupData k = none := by rw [hb]; rfl
    have hnew := createBackupGo_new cfg tx.operations s tx.backupData k h0
    rw [hcb] at hnew
    simp only at hnew
    rw [hnew, hbval k]
  have hbnodup : (entryKeys b).Nodup := by
    have hn := createBackupGo_nodup cfg tx.operations s tx.backupData
      (by rw [hb]; simp [entryKeys])
    rw [hcb] at hn
    exact hn
  rcases heb : executeBatch cfg 100 s1 tx.operations with ⟨s2, result⟩
  have hpres := executeBatch_preserves cfg 100 s1 tx.operations
  rw [heb] at hpres
  simp only at hpres
  have hs2nodup : (entryKeys s2.data).Nodup := by
    apply hpres.2
    rw [hstate.1]
    exact hnodup
  by_cases hsucc : result.success = true
  · have hcommit : commit cfg s tx =
        (s2, { tx with backupData := [], isCommitted := true }, .ok result) := by
      simp only [commit, hcheck, hcbs, heb, hsucc, if_true]
    refine ⟨result, ?_, fun hfalse => absurd hsucc (by rw [hfalse]; simp)⟩
    rw [hcommit]
  · have hvb : ∀ k val, lookupEntry b k = some (some val) →
        validateData (some val) = true := by
      intro k val hkv
      rw [hcontent k] at hkv
      by_cases hmem : k ∈ tx.operations.map (fun op => op.key)
      · rw [if_pos hmem] at hkv
        injection hkv with hkv2
        exact hvalid k val hkv2
      · rw [if_neg hmem] at hkv
        cases hkv
    have hrestore := restoreBackup_ok cfg hsf hlf hdf b s2 hs2nodup hbnodup hvb
    rcases hrb : restoreBackup cfg s2 b with ⟨s3, e3⟩
    rw [hrb] at hrestore
    simp only at hrestore
    have he3 : e3 = none := hrestore.1
    subst he3
    have hrollback : rollback cfg s2 { tx with backupData := b } =
        (s3, { tx with backupData := [], isRolledBack := true }, none) := by
      have hflag : ({ tx with backupData := b }).isRolledBack = false := hr
      have hflag2 : ({ tx with backupData := b }).isCommitted = false := hc
      simp [rollback, hflag, hflag2, hrb, hr, hc]
    have hcommit : commit cfg s tx =
        (s3, { tx with backupData := [], isRolledBack := true }, .ok result) := by
      simp only [commit, hcheck, hcbs, heb, hsucc]
      rw [hrollback]
      simp
    refine ⟨result, ?_, ?_⟩
    · rw [hcommit]
    · intro _ k hk
      rw [hcommit]
      have hbk : lookupEntry b k = some (lookupEntry s.data k) := by
        rw [hcontent k, if_pos hk]
      exact hrestore.2.2.1 k (lookupEntry s.data k) hbk

/-! Section: claim theorems -/

/-- C1 (counterexample): the claim that `executeBatch` reports its
`OperationResult`s in the original input order is false — a chunk mixing a
delete before a save reports the save's result first, because
`executeChunk` runs and records all saves before all deletes and never
reassembles the input order. -/
theorem executeBatch_not_input_order_cex :
    (executeBatch {} 100 { data := [] }
        [⟨.delete, "a", none⟩, ⟨.save, "b", some (.str "x")⟩]).2.operations.map
          (fun r => r.operation) ≠
      [⟨.delete, "a", none⟩, ⟨.save, "b", some (.str "x")⟩] := by decide

/-- C1 (amended): for every operation list and positive `maxBatchSize`,
`executeBatch` returns exactly N `OperationResult`s, one per input
operation — but ordered chunk by chunk with each chunk's save results
(in input order) before its delete results (in input order), not in the
original input order. -/
theorem executeBatch_one_result_per_operation (cfg : FailureModel) (size : Nat)
    (s : Storage) (ops : List BatchOperation) (h : 0 < size) :
    (executeBatch cfg size s ops).2.operations.map (fun r => r.operation) =
      ((chunkList size ops).map (fun c =>
        c.filter (fun op => op.type = OpType.save) ++
          c.filter (fun op => op.type = OpType.delete))).flatten ∧
    (executeBatch cfg size s ops).2.operations.length = ops.length :=
  ⟨executeBatch_operations_map cfg size s ops, executeBatch_length cfg size s ops h⟩

/-- Witness for the amended C1 at a concrete mixed two-operation batch. -/
theorem executeBatch_one_result_per_operation_witness :
    (executeBatch {} 2 { data := [] }
        [⟨.delete, "a", none⟩, ⟨.save, "b", some (.str "x")⟩]).2.operations.map
          (fun r => r.operation) =
      ((chunkList 2 [(⟨.delete, "a", none⟩ : BatchOperation),
          ⟨.save, "b", some (.str "x")⟩]).map (fun c =>
        c.filter (fun op => op.type = OpType.save) ++
          c.filter (fun op => op.type = OpType.delete))).flatten ∧
    (executeBatch {} 2 { data := [] }
        [⟨.delete, "a", none⟩, ⟨.save, "b", some (.str "x")⟩]).2.operations.length = 2 :=
  executeBatch_one_result_per_operation {} 2 { data := [] }
    [⟨.delete, "a", none⟩, ⟨.save, "b", some (.str "x")⟩] (by decide)

/-- C2 (counterexample): with a backend whose read of key `k` throws, the
backup records the absent-marker for `k` although `k` holds `"v"`; when
the batch then fails (second operation carries `undefined`), rollback
deletes `k`, so after a non-successful `commit()` the key does not hold
its pre-commit value. -/
theorem commit_backup_read_failure_not_restored_cex :
    commitReportedSuccess (commit { loadFails := ["k"] } { data := [("k", .str "v")] }
        { operations := [⟨.save, "k", some (.str "w")⟩, ⟨.save, "k2", none⟩] }).2.2 =
      some false ∧
    lookupEntry (commit { loadFails := ["k"] } { data := [("k", .str "v")] }
        { operations := [⟨.save, "k", some (.str "w")⟩, ⟨.save, "k2", none⟩] }).1.data "k" =
      none ∧
    lookupEntry [("k", JSValue.str "v")] "k" = some (.str "v") := by decide

/-- Witness for the amended C2: a transaction whose only operation fails
validation commits unsuccessfully against an empty failure-free backend,
and its touched key is restored (here: stays absent). -/
theorem commit_failure_restores_touched_keys_witness :
    ∃ r, (commit {} { data := [] }
        { operations := [⟨.save, "k2", none⟩] }).2.2 = Except.ok r ∧
      (r.success = false →
        ∀ k, k ∈ ({ operations := [⟨.save, "k2", none⟩] } : Transaction).operations.map
            (fun op => op.key) →
          lookupEntry (commit {} { data := [] }
            { operations := [⟨.save, "k2", none⟩] }).1.data k =
            lookupEntry ({ data := [] } : Storage).data k) :=
  commit_failure_restores_touched_keys {} { data := [] }
    { operations := [⟨.save, "k2", none⟩] } rfl rfl rfl (by simp [entryKeys])
    (by intro k val hkv; simp [lookupEntry] at hkv) rfl rfl rfl

/-- C3 (counterexample): with backup entries for `a` then `b` and a
backend whose save of `a` throws, `rollback()` raises and leaves `b` at
its current value `"9"` even though restoring `b` to its backed-up `"2"`
would have succeeded — the remaining entry was never attempted. -/
theorem rollback_skips_remaining_entries_cex :
    ((rollback { saveFails := ["a"] } { data := [("b", JSValue.str "9")] }
        { backupData := [("a", some (JSValue.str "1")),
          ("b", some (JSValue.str "2"))] }).2.2).isSome ∧
    lookupEntry (rollback { saveFails := ["a"] } { data := [("b", JSValue.str "9")] }
        { backupData := [("a", some (JSValue.str "1")),
          ("b", some (JSValue.str "2"))] }).1.data "b" = some (.str "9") ∧
    (restoreEntry { saveFails := ["a"] }
        (rollback { saveFails := ["a"] } { data := [("b", JSValue.str "9")] }
          { backupData := [("a", some (JSValue.str "1")),
            ("b", some (JSValue.str "2"))] }).1 "b" (some (JSValue.str "2"))).2 =
      none := by decide

/-- C3 (amended): the restore loop aborts at the first failing entry:
when the entries before position i restore cleanly and entry i's restore
throws, `rollback()` returns the state as of the failed attempt, raises
`RollbackError`, and the entries after i are left unattempted — the
transaction is not marked rolled back and the backup is kept. -/
theorem rollback_aborts_at_first_failing_restore (cfg : FailureModel)
    (s s1 s2 : Storage) (tx : Transaction)
    (pre rest : List (String × Option JSValue)) (k : String)
    (v : Option JSValue) (e : JSError)
    (hc : tx.isCommitted = false) (hr : tx.isRolledBack = false)
    (hbd : tx.backupData = pre ++ (k, v) :: rest)
    (hpre : restoreBackup cfg s pre = (s1, none))
    (hfail : restoreEntry cfg s1 k v = (s2, some e)) :
    rollback cfg s tx =
      (s2, tx, some (.rollbackFailed ("Rollback failed: " ++ e.message))) := by
  have happ := restoreBackup_append_of_ok cfg pre s s1 ((k, v) :: rest) hpre
  have hcons : restoreBackup cfg s1 ((k, v) :: rest) = (s2, some e) := by
    show (match restoreEntry cfg s1 k v with
      | (s3, none) => restoreBackup cfg s3 rest
      | (s3, some e2) => (s3, some e2)) = (s2, some e)
    rw [hfail]
  unfold rollback
  rw [hc, hr]
  simp only [Bool.or_self, Bool.false_eq_true, if_neg, ite_false]
  rw [hbd, happ, hcons]

/-- Witness for the amended C3 at the concrete two-entry backup whose
first restore fails. -/
theorem rollback_aborts_at_first_failing_restore_witness :
    rollback { saveFails := ["a"] } { data := [("b", JSValue.str "9")] }
        { backupData := [("a", some (JSValue.str "1")),
          ("b", some (JSValue.str "2"))] } =
      ({ data := [("b", JSValue.str "9")] },
        { backupData := [("a", some (JSValue.str "1")),
          ("b", some (JSValue.str "2"))] },
        some (.rollbackFailed ("Rollback failed: " ++
          (JSError.backendSave "a").message))) :=
  rollback_aborts_at_first_failing_restore { saveFails := ["a"] }
    { data := [("b", JSValue.str "9")] } { data := [("b", JSValue.str "9")] }
    { data := [("b", JSValue.str "9")] }
    { backupData := [("a", some (JSValue.str "1")), ("b", some (JSValue.str "2"))] }
    [] [("b", some (JSValue.str "2"))] "a" (some (JSValue.str "1"))
    (.backendSave "a") rfl rfl rfl rfl (by decide)

/-- C4 (counterexample): in `'info'` mode, a failing pre-delete read makes
`delete` throw before the backend delete runs — the key is still present
afterwards, refuting "a failure of that read does not prevent the delete". -/
theorem delete_info_failing_preread_blocks_delete_cex :
    dsDelete { loadFails := ["k"] }
        { data := [("k", JSValue.str "v")], emitMode := .info } "k" =
      ({ data := [("k", JSValue.str "v")], emitMode := .info },
        some (JSError.backendLoad "k")) ∧
    lookupEntry ({ data := [("k", JSValue.str "v")], emitMode := EmitMode.info }
      : Storage).data "k" = some (.str "v") := by decide

/-- C4 (amended): in `'info'` mode `delete` reads the pre-delete value
first and includes it in the emitted delete event; but the read is not
best-effort: if it throws, `delete` rethrows and the backend delete is
not performed (the state is unchanged). -/
theorem delete_info_mode_preread (cfg : FailureModel) (s : Storage) (k : String)
    (hm : s.emitMode = .info) :
    (k ∈ cfg.loadFails → dsDelete cfg s k = (s, some (.backendLoad k))) ∧
    (k ∉ cfg.loadFails → k ∉ cfg.deleteFails →
      dsDelete cfg s k =
        ({ data := eraseEntry s.data k, emitMode := s.emitMode,
           events := s.events ++ [.deleteEvt k (lookupEntry s.data k)] }, none)) := by
  constructor
  · intro hl
    simp [dsDelete, adapterLoad, hm, hl]
  · intro hl hd
    simp [dsDelete, adapterLoad, adapterDelete, hm, hl, hd]

/-- Witness for the amended C4: failing pre-read blocks the delete; a
clean pre-read deletes and emits the pre-value in the event. -/
theorem delete_info_mode_preread_witness :
    (dsDelete { loadFails := ["k"] }
        { data := [("k", JSValue.str "v")], emitMode := .info } "k" =
      ({ data := [("k", JSValue.str "v")], emitMode := .info },
        some (JSError.backendLoad "k"))) ∧
    (dsDelete {} { data := [("k", JSValue.str "v")], emitMode := .info } "k" =
      ({ data := [], emitMode := .info,
         events := [.deleteEvt "k" (some (.str "v"))] }, none)) := by
  constructor
  · exact (delete_info_mode_preread { loadFails := ["k"] }
      { data := [("k", JSValue.str "v")], emitMode := .info } "k" rfl).1 (by simp)
  · have h := (delete_info_mode_preread {}
      { data := [("k", JSValue.str "v")], emitMode := .info } "k" rfl).2
      (by simp) (by simp)
    simpa using h

/-- C5 (confirmed): every input operation yields exactly one result (a
failing operation never aborts its chunk), batch-level `success` is the
conjunction of the per-operation outcomes (so any failure flips it to
false), and `errors` carries exactly one descriptive entry per failed
operation.  The final conjunct exhibits a chunk in which the middle
operation fails while its siblings succeed. -/
theorem executeBatch_partial_failure_isolation (cfg : FailureModel) (size : Nat)
    (s : Storage) (ops : List BatchOperation) (h : 0 < size) :
    (executeBatch cfg size s ops).2.operations.length = ops.length ∧
    (executeBatch cfg size s ops).2.success =
      (executeBatch cfg size s ops).2.operations.all (fun r => r.success) ∧
    (executeBatch cfg size s ops).2.errors.length =
      ((executeBatch cfg size s ops).2.operations.filter (fun r => !r.success)).length ∧
    ((executeBatch { saveFails := ["fail_key"] } 100
        { data := [("existing", .str "orig")] }
        [⟨.save, "existing", some (.str "new")⟩, ⟨.save, "fail_key", some (.str "z")⟩,
         ⟨.save, "other", some (.str "y")⟩]).2.operations.map (fun r => r.success) =
      [true, false, true] ∧
     (executeBatch { saveFails := ["fail_key"] } 100
        { data := [("existing", .str "orig")] }
        [⟨.save, "existing", some (.str "new")⟩, ⟨.save, "fail_key", some (.str "z")⟩,
         ⟨.save, "other", some (.str "y")⟩]).2.success = false) :=
  ⟨executeBatch_length cfg size s ops h,
    execChunks_success cfg (chunkList size ops) s,
    execChunks_errors_count cfg (chunkList size ops) s,
    by decide⟩

/-- Witness for C5 at a concrete mixed batch with one backend failure. -/
theorem executeBatch_partial_failure_isolation_witness :
    (executeBatch { saveFails := ["x"] } 2 { data := [] }
        [⟨.save, "x", some (.str "1")⟩, ⟨.delete, "y", none⟩]).2.operations.length = 2 ∧
    (executeBatch { saveFails := ["x"] } 2 { data := [] }
        [⟨.save, "x", some (.str "1")⟩, ⟨.delete, "y", none⟩]).2.success =
      (executeBatch { saveFails := ["x"] } 2 { data := [] }
        [⟨.save, "x", some (.str "1")⟩, ⟨.delete, "y", none⟩]).2.operations.all
          (fun r => r.success) ∧
    (executeBatch { saveFails := ["x"] } 2 { data := [] }
        [⟨.save, "x", some (.str "1")⟩, ⟨.delete, "y", none⟩]).2.errors.length =
      ((executeBatch { saveFails := ["x"] } 2 { data := [] }
        [⟨.save, "x", some (.str "1")⟩, ⟨.delete, "y", none⟩]).2.operations.filter
          (fun r => !r.success)).length ∧
    ((executeBatch { saveFails := ["fail_key"] } 100
        { data := [("existing", .str "orig")] }
        [⟨.save, "existing", some (.str "new")⟩, ⟨.save, "fail_key", some (.str "z")⟩,
         ⟨.save, "other", some (.str "y")⟩]).2.operations.map (fun r => r.success) =
      [true, false, true] ∧
     (executeBatch { saveFails := ["fail_key"] } 100
        { data := [("existing", .str "orig")] }
        [⟨.save, "existing", some (.str "new")⟩, ⟨.save, "fail_key", some (.str "z")⟩,
         ⟨.save, "other", some (.str "y")⟩]).2.success = false) :=
  executeBatch_partial_failure_isolation { saveFails := ["x"] } 2 { data := [] }
    [⟨.save, "x", some (.str "1")⟩, ⟨.delete, "y", none⟩] (by decide)

/-- C6 (confirmed): starting from the empty backup of a fresh commit, the
backup holds at most one entry per key; a key has an entry exactly when
some pending operation references it, and that entry is the value read
through the backend load with read failures (and misses) recorded as the
`null` absent-marker; and an entry already present in the backup is never
overwritten by later operations on the same key. -/
theorem createBackup_first_touch_per_key (cfg : FailureModel) (s : Storage)
    (tx : Transaction) (hb : tx.backupData = []) :
    (entryKeys (createBackup cfg s tx).2.backupData).Nodup ∧
    (∀ k, lookupEntry (createBackup cfg s tx).2.backupData k =
      if k ∈ tx.operations.map (fun op => op.key)
        then some (backupValue cfg s k) else none) ∧
    (∀ (b0 : List (String × Option JSValue)) (k : String),
      (lookupEntry b0 k).isSome →
      lookupEntry (createBackupGo cfg s b0 tx.operations).2 k = lookupEntry b0 k) := by
  rcases hcb : createBackupGo cfg s tx.backupData tx.operations with ⟨s1, b⟩
  have hout : (createBackup cfg s tx).2.backupData = b := by
    simp [createBackup, hcb]
  refine ⟨?_, ?_, ?_⟩
  · rw [hout]
    have hn := createBackupGo_nodup cfg tx.operations s tx.backupData
      (by rw [hb]; simp [entryKeys])
    rw [hcb] at hn
    exact hn
  · intro k
    rw [hout]
    have h0 : lookupEntry tx.backupData k = none := by rw [hb]; rfl
    have hnew := createBackupGo_new cfg tx.operations s tx.backupData k h0
    rw [hcb] at hnew
    simpa using hnew
  · intro b0 k hk
    exact createBackupGo_preserved cfg tx.operations s b0 k hk

/-- Witness for C6: a transaction that writes the same key twice and also
touches a key whose read fails. -/
theorem createBackup_first_touch_per_key_witness :
    (entryKeys (createBackup { loadFails := ["f"] }
        { data := [("a", JSValue.str "1")] }
        { operations := [⟨.save, "a", some (.str "2")⟩, ⟨.save, "a", some (.str "3")⟩,
          ⟨.delete, "f", none⟩] }).2.backupData).Nodup ∧
    (∀ k, lookupEntry (createBackup { loadFails := ["f"] }
        { data := [("a", JSValue.str "1")] }
        { operations := [⟨.save, "a", some (.str "2")⟩, ⟨.save, "a", some (.str "3")⟩,
          ⟨.delete, "f", none⟩] }).2.backupData k =
      if k ∈ (({ operations := [⟨.save, "a", some (.str "2")⟩,
          ⟨.save, "a", some (.str "3")⟩, ⟨.delete, "f", none⟩] } : Transaction)
            |>.operations).map (fun op => op.key)
        then some (backupValue { loadFails := ["f"] }
          { data := [("a", JSValue.str "1")] } k) else none) ∧
    (∀ (b0 : List (String × Option JSValue)) (k : String),
      (lookupEntry b0 k).isSome →
      lookupEntry (createBackupGo { loadFails := ["f"] }
        { data := [("a", JSValue.str "1")] } b0
        (({ operations := [⟨.save, "a", some (.str "2")⟩,
          ⟨.save, "a", some (.str "3")⟩, ⟨.delete, "f", none⟩] } : Transaction)
            |>.operations)).2 k = lookupEntry b0 k) :=
  createBackup_first_touch_per_key { loadFails := ["f"] }
    { data := [("a", JSValue.str "1")] }
    { operations := [⟨.save, "a", some (.str "2")⟩, ⟨.save, "a", some (.str "3")⟩,
      ⟨.delete, "f", none⟩] } rfl

/-- C7 (confirmed): `Committed` and `RolledBack` are terminal.  Once
committed, `save`/`delete`/`clear`/`commit` all raise the
already-committed `InvalidStateError`; once rolled back (and not
committed) they raise the rolled-back one; in the open state `save` and
`delete` append their operation. -/
theorem transaction_terminal_states (cfg : FailureModel) (s : Storage)
    (tx : Transaction) (k : String) (v : JSValue) :
    (tx.isCommitted = true →
      txSave tx k v = .error (.invalidState "Transaction has already been committed") ∧
      txDelete tx k = .error (.invalidState "Transaction has already been committed") ∧
      txClear tx = .error (.invalidState "Transaction has already been committed") ∧
      commit cfg s tx =
        (s, tx, .error (.invalidState "Transaction has already been committed"))) ∧
    (tx.isCommitted = false → tx.isRolledBack = true →
      txSave tx k v = .error (.invalidState "Transaction has been rolled back") ∧
      txDelete tx k = .error (.invalidState "Transaction has been rolled back") ∧
      txClear tx = .error (.invalidState "Transaction has been rolled back") ∧
      commit cfg s tx =
        (s, tx, .error (.invalidState "Transaction has been rolled back"))) ∧
    (tx.isCommitted = false → tx.isRolledBack = false →
      txSave tx k v = .ok { tx with operations := tx.operations ++ [⟨.save, k, some v⟩] } ∧
      txDelete tx k = .ok { tx with operations := tx.operations ++ [⟨.delete, k, none⟩] }) := by
  refine ⟨?_, ?_, ?_⟩
  · intro hcom
    have hch : checkTransactionState tx =
        some (.invalidState "Transaction has already been committed") := by
      simp [checkTransactionState, hcom]
    exact ⟨by simp [txSave, hch], by simp [txDelete, hch], by simp [txClear, hch],
      by simp [commit, hch]⟩
  · intro hcom hrb
    have hch : checkTransactionState tx =
        some (.invalidState "Transaction has been rolled back") := by
      simp [checkTransactionState, hcom, hrb]
    exact ⟨by simp [txSave, hch], by simp [txDelete, hch], by simp [txClear, hch],
      by simp [commit, hch]⟩
  · intro hcom hrb
    have hch : checkTransactionState tx = none := by
      simp [checkTransactionState, hcom, hrb]
    exact ⟨by simp [txSave, hch], by simp [txDelete, hch]⟩

/-- Witness for C7 in all three states. -/
theorem transaction_terminal_states_witness :
    txSave { isCommitted := true } "k" (.str "v") =
      .error (.invalidState "Transaction has already been committed") ∧
    txSave { isRolledBack := true } "k" (.str "v") =
      .error (.invalidState "Transaction has been rolled back") ∧
    txSave {} "k" (.str "v") = .ok { operations := [⟨.save, "k", some (.str "v")⟩] } := by
  refine ⟨?_, ?_, ?_⟩
  · exact ((transaction_terminal_states {} { data := [] } { isCommitted := true }
      "k" (.str "v")).1 rfl).1
  · exact ((transaction_terminal_states {} { data := [] } { isRolledBack := true }
      "k" (.str "v")).2.1 rfl rfl).1
  · exact ((transaction_terminal_states {} { data := [] } {}
      "k" (.str "v")).2.2 rfl rfl).1

/-- C8 (confirmed): `DataStorage.save` raises the validation error exactly
when the value is `undefined`, `null`, or not serializable (a circular
object), and in that case nothing is written: the call returns with the
state exactly as it was. -/
theorem save_validation_iff_and_no_write (cfg : FailureModel) (s : Storage)
    (k : String) (v : Option JSValue) :
    ((dsSave cfg s k v).2 = some JSError.validation ↔
      (v = none ∨ v = some .jsnull ∨ v = some (.obj true))) ∧
    ((v = none ∨ v = some .jsnull ∨ v = some (.obj true)) →
      dsSave cfg s k v = (s, some JSError.validation)) := by
  have hval : validateData v = false ↔
      (v = none ∨ v = some .jsnull ∨ v = some (.obj true)) := by
    cases v with
    | none => simp [validateData]
    | some val =>
        cases val with
        | str s0 => simp [validateData]
        | num n => simp [validateData]
        | boolean b0 => simp [validateData]
        | jsnull => simp [validateData]
        | obj c => cases c <;> simp [validateData]
  rcases dsSave_cases cfg s k v with ⟨hbad, heq⟩ | ⟨hgood, _, heq⟩ |
    ⟨hgood, _, val, hv, ev, heq⟩
  · constructor
    · constructor
      · intro _
        exact hval.mp hbad
      · intro _
        rw [heq]
    · intro _
      exact heq
  · have hnot : ¬(v = none ∨ v = some .jsnull ∨ v = some (.obj true)) := by
      intro hcon
      rw [hval.mpr hcon] at hgood
      cases hgood
    constructor
    · constructor
      · intro h
        rw [heq] at h
        simp at h
      · intro hcon
        exact absurd hcon hnot
    · intro hcon
      exact absurd hcon hnot
  · have hnot : ¬(v = none ∨ v = some .jsnull ∨ v = some (.obj true)) := by
      intro hcon
      rw [hval.mpr hcon] at hgood
      cases hgood
    constructor
    · constructor
      · intro h
        rw [heq] at h
        simp at h
      · intro hcon
        exact absurd hcon hnot
    · intro hcon
      exact absurd hcon hnot

/-- Witness for C8: saving `null` is rejected and leaves the state
untouched. -/
theorem save_validation_iff_and_no_write_witness :
    dsSave {} { data := [("a", JSValue.str "1")] } "k" (some .jsnull) =
      ({ data := [("a", JSValue.str "1")] }, some JSError.validation) :=
  (save_validation_iff_and_no_write {} { data := [("a", JSValue.str "1")] }
    "k" (some .jsnull)).2 (Or.inr (Or.inl rfl))

/-- C9 (confirmed): for every key list and positive chunk size,
`batchLoad` returns a mapping whose keys are exactly the requested keys,
each exactly once, where a key maps to the stored value (or `null` on a
miss) and to `null` when its load fails; a failing load never aborts the
call. -/
theorem batchLoad_total_coverage (cfg : FailureModel) (size : Nat) (s : Storage)
    (keys : List String) (h : 0 < size) :
    (entryKeys (batchLoad cfg size s keys)).Nodup ∧
    (∀ k, k ∈ entryKeys (batchLoad cfg size s keys) ↔ k ∈ keys) ∧
    (∀ k, k ∈ keys → lookupEntry (batchLoad cfg size s keys) k =
      some (if k ∈ cfg.loadFails then none else lookupEntry s.data k)) := by
  obtain ⟨t, rfl⟩ : ∃ t, size = t + 1 := ⟨size - 1, by omega⟩
  have hfold : batchLoad cfg (t + 1) s keys =
      keys.foldl (fun acc k => setEntry acc k (batchLoadOne cfg s k)) [] := by
    unfold batchLoad
    exact foldl_chunkList (fun acc k => setEntry acc k (batchLoadOne cfg s k)) t keys []
  have hone : ∀ k, batchLoadOne cfg s k =
      if k ∈ cfg.loadFails then none else lookupEntry s.data k := by
    intro k
    unfold batchLoadOne adapterLoad
    by_cases hk : k ∈ cfg.loadFails <;> simp [hk]
  refine ⟨?_, ?_, ?_⟩
  · rw [hfold]
    exact foldl_setEntry_nodup _ keys [] (by simp [entryKeys])
  · intro k
    rw [hfold, foldl_setEntry_mem]
    simp [entryKeys]
  · intro k hk
    rw [hfold, foldl_setEntry_lookup, if_pos hk, hone k]

/-- Witness for C9 reproducing the spec's Scenario D (with a duplicate
request and a failing key added). -/
theorem batchLoad_total_coverage_witness :
    (entryKeys (batchLoad { loadFails := ["bad"] } 2
        { data := [("k1", JSValue.str "v1"), ("k2", JSValue.str "v2")] }
        ["k1", "k2", "missing", "bad", "k1"])).Nodup ∧
    (∀ k, k ∈ entryKeys (batchLoad { loadFails := ["bad"] } 2
        { data := [("k1", JSValue.str "v1"), ("k2", JSValue.str "v2")] }
        ["k1", "k2", "missing", "bad", "k1"]) ↔
      k ∈ ["k1", "k2", "missing", "bad", "k1"]) ∧
    (∀ k, k ∈ ["k1", "k2", "missing", "bad", "k1"] →
      lookupEntry (batchLoad { loadFails := ["bad"] } 2
        { data := [("k1", JSValue.str "v1"), ("k2", JSValue.str "v2")] }
        ["k1", "k2", "missing", "bad", "k1"]) k =
      some (if k ∈ ({ loadFails := ["bad"] } : FailureModel).loadFails then none
        else lookupEntry [("k1", JSValue.str "v1"), ("k2", JSValue.str "v2")] k)) :=
  batchLoad_total_coverage { loadFails := ["bad"] } 2
    { data := [("k1", JSValue.str "v1"), ("k2", JSValue.str "v2")] }
    ["k1", "k2", "missing", "bad", "k1"] (by decide)

/-- C10 (counterexample): the constructor keeps a negative
`maxBatchSize` (only `0` and `undefined` are replaced by the default), so
the effective chunk size is not always positive — and with a non-positive
size the source's chunking loop does not terminate on nonempty input. -/
theorem effectiveMaxBatchSize_negative_cex :
    effectiveMaxBatchSize (some (-5)) = -5 ∧
    ¬(0 < effectiveMaxBatchSize (some (-5))) := by decide

/-- C10 (amended): `maxBatchSize` of `0` or `undefined` falls back to the
default `100`; whenever the configured size is non-negative the effective
size is positive, and chunking with a positive size partitions the input:
the chunks concatenate back to the input list, and every chunk is
nonempty with at most the effective size of elements. -/
theorem effectiveMaxBatchSize_default_and_partition (m : Option Int)
    (h : ∀ x, m = some x → 0 ≤ x) :
    effectiveMaxBatchSize none = 100 ∧
    effectiveMaxBatchSize (some 0) = 100 ∧
    0 < effectiveMaxBatchSize m ∧
    (∀ ops : List BatchOperation,
      (chunkList (effectiveMaxBatchSize m).toNat ops).flatten = ops ∧
      ∀ c ∈ chunkList (effectiveMaxBatchSize m).toNat ops,
        c.length ≤ (effectiveMaxBatchSize m).toNat ∧ c ≠ []) := by
  have hpos : 0 < effectiveMaxBatchSize m := by
    cases m with
    | none => simp [effectiveMaxBatchSize]
    | some x =>
        have hx := h x rfl
        by_cases hx0 : x = 0
        · simp [effectiveMaxBatchSize, hx0]
        · simp only [effectiveMaxBatchSize, hx0, if_neg, ite_false]
          omega
  refine ⟨rfl, rfl, hpos, ?_⟩
  intro ops
  obtain ⟨t, ht⟩ : ∃ t, (effectiveMaxBatchSize m).toNat = t + 1 := by
    refine ⟨(effectiveMaxBatchSize m).toNat - 1, ?_⟩
    omega
  rw [ht]
  exact ⟨chunkList_flatten t ops, chunkList_mem_bounds t ops⟩

/-- Witness for the amended C10 at a positive configured size. -/
theorem effectiveMaxBatchSize_default_and_partition_witness :
    effectiveMaxBatchSize none = 100 ∧
    effectiveMaxBatchSize (some 0) = 100 ∧
    0 < effectiveMaxBatchSize (some 3) ∧
    (∀ ops : List BatchOperation,
      (chunkList (effectiveMaxBatchSize (some 3)).toNat ops).flatten = ops ∧
      ∀ c ∈ chunkList (effectiveMaxBatchSize (some 3)).toNat ops,
        c.length ≤ (effectiveMaxBatchSize (some 3)).toNat ∧ c ≠ []) :=
  effectiveMaxBatchSize_default_and_partition (some 3)
    (by intro x hx; injection hx with hx2; omega)
